import Mathlib

/-!
Verification development for the clause screening and rule evaluation engine
of this repository (clause_splitter.py and evaluate_file.py).

The Python code is shallowly embedded: strings are Lean String values,
Python regular expression operations are executed by a small backtracking
matcher specialised to the fixed patterns of the source, Python dictionaries
holding rule configuration become optional record fields (a missing key is
None), and Python exceptions become the error branch of Except.  Python
sets are modelled as first-occurrence-ordered lists of distinct values;
only cardinality and membership of those sets are semantically relevant.
-/

set_option maxRecDepth 4000

namespace ClauseEngine

/-- Whitespace as recognised by Python str.strip, str.split and the regex
class for spaces: space, tab, newline, carriage return, vertical tab and
form feed. -/
def isPySpace (c : Char) : Bool :=
  c = ' ' || c = '\t' || c = '\n' || c = '\r' || c = '\x0b' || c = '\x0c'

/-- Word characters for the regex word-boundary assertion.  Python matches
Unicode word characters; the documents and patterns handled by the engine
are modelled over ASCII letters, digits and the underscore. -/
def isWordChar (c : Char) : Bool :=
  c.isAlphanum || c = '_'

/-- Python str.strip on a character list: drop leading and trailing
whitespace. -/
def pyStripList (l : List Char) : List Char :=
  ((l.dropWhile isPySpace).reverse.dropWhile isPySpace).reverse

/-- Python str.strip. -/
def pyStrip (s : String) : String :=
  ⟨pyStripList s.data⟩

/-- Helper for Python str.split with no separator: accumulate the current
word (reversed) and close it at whitespace. -/
def pySplitAux : List Char → List Char → List (List Char)
  | [], acc => if acc.isEmpty then [] else [acc.reverse]
  | c :: cs, acc =>
    if isPySpace c then
      if acc.isEmpty then pySplitAux cs [] else acc.reverse :: pySplitAux cs []
    else pySplitAux cs (c :: acc)

/-- Python len(s.split()): the number of maximal non-whitespace runs. -/
def wordCount (s : String) : Nat :=
  (pySplitAux s.data []).length

/-- Python text.replace of the two-character sequence carriage return plus
newline by a newline, scanning left to right without overlap. -/
def replaceCRLF : List Char → List Char
  | '\r' :: '\n' :: rest => '\n' :: replaceCRLF rest
  | c :: rest => c :: replaceCRLF rest
  | [] => []

/-- Space or tab, the class collapsed by the splitter normalisation. -/
def isHorizSpace (c : Char) : Bool :=
  c = ' ' || c = '\t'

/-- Helper for the whitespace collapse: the flag records whether the
previous character was part of a space-or-tab run already emitted. -/
def collapseWSAux : Bool → List Char → List Char
  | _, [] => []
  | inRun, c :: rest =>
    if isHorizSpace c then
      if inRun then collapseWSAux true rest
      else ' ' :: collapseWSAux true rest
    else c :: collapseWSAux false rest

/-- Python re.sub of one or more spaces or tabs by a single space. -/
def collapseWS (l : List Char) : List Char :=
  collapseWSAux false l

/-- Case folding used for the case-insensitive marker patterns.  ASCII
letters fold as usual; the non-ASCII letters occurring in the marker
catalogue fold explicitly. -/
def foldCase (c : Char) : Char :=
  if 'A' ≤ c && c ≤ 'Z' then c.toLower
  else if c = 'Ü' then 'ü'
  else if c = 'Ä' then 'ä'
  else if c = 'Ö' then 'ö'
  else c

/-- Patterns of the backtracking regex matcher.  Exactly the constructs
used by the fixed regular expressions of the source are supported: a
character class, a literal (case-sensitive or case-insensitive), sequence,
ordered alternation, greedy star, the word-boundary assertion and a
lookbehind on the previous character. -/
inductive RE where
  | eps : RE
  | cls (f : Char → Bool) : RE
  | lit (s : List Char) : RE
  | litCI (s : List Char) : RE
  | seq (a b : RE) : RE
  | alt (a b : RE) : RE
  | star (a : RE) : RE
  | bnd : RE
  | lookPrev (f : Option Char → Bool) : RE

/-- Match a literal, threading the previous character. -/
def matchLit (ci : Bool) : List Char → Option Char → List Char →
    Option (Option Char × List Char)
  | [], p, s => some (p, s)
  | _ :: _, _, [] => none
  | c :: cs, _, d :: ds =>
    if (if ci then foldCase c = foldCase d else c = d) then
      matchLit ci cs (some d) ds
    else none

/-- Is the optional character a word character (start and end of the text
count as non-word positions). -/
def isWordOpt : Option Char → Bool
  | none => false
  | some c => isWordChar c

/-- Structural size of a pattern, used to budget the matcher fuel. -/
def reSize : RE → Nat
  | .eps => 1
  | .cls _ => 1
  | .lit _ => 1
  | .litCI _ => 1
  | .seq a b => reSize a + reSize b + 1
  | .alt a b => reSize a + reSize b + 1
  | .star a => reSize a + 1
  | .bnd => 1
  | .lookPrev _ => 1

/-- Run a pattern at the start of the input, returning all possible
(previous character, remaining input) outcomes in backtracking priority
order; the head of the list is the match the Python regex engine commits
to.  The recursion is fuelled so that the definition is structural and
kernel-computable; findAt supplies ample fuel, every star iteration
consuming at least one input character. -/
def runRE : Nat → RE → Option Char → List Char → List (Option Char × List Char)
  | 0, _, _, _ => []
  | f + 1, re, p, s =>
    match re with
    | .eps => [(p, s)]
    | .cls g =>
      match s with
      | [] => []
      | c :: rest => if g c then [(some c, rest)] else []
    | .lit cs => (matchLit false cs p s).toList
    | .litCI cs => (matchLit true cs p s).toList
    | .seq a b => (runRE f a p s).flatMap fun q => runRE f b q.1 q.2
    | .alt a b => runRE f a p s ++ runRE f b p s
    | .star a =>
      ((runRE f a p s).filter fun q => q.2.length < s.length).flatMap
        (fun q => runRE f (.star a) q.1 q.2) ++ [(p, s)]
    | .bnd => if isWordOpt p != isWordOpt s.head? then [(p, s)] else []
    | .lookPrev g => if g p then [(p, s)] else []

/-- First match of the pattern at the current position: the matched
characters, the rest of the input and the new previous character. -/
def findAt (re : RE) (p : Option Char) (s : List Char) :
    Option (List Char × List Char × Option Char) :=
  match runRE ((s.length + 1) * (reSize re + 1)) re p s with
  | [] => none
  | (p', rest) :: _ => some (s.take (s.length - rest.length), rest, p')

/-- Scan for all non-overlapping leftmost matches, as Python re.findall. -/
def goFindAll : Nat → RE → Option Char → List Char → List (List Char)
  | _, _, _, [] => []
  | 0, _, _, _ => []
  | f + 1, re, p, c :: rest =>
    match findAt re p (c :: rest) with
    | some (m, r, p') =>
      if m.isEmpty then goFindAll f re (some c) rest
      else m :: goFindAll f re p' r
    | none => goFindAll f re (some c) rest

/-- Python re.findall restricted to the whole match. -/
def reFindAll (re : RE) (s : List Char) : List (List Char) :=
  goFindAll s.length re none s

/-- Scan rebuilding the text with a pilcrow inserted before every
non-overlapping leftmost match, as re.sub with a backreference keeping the
matched text. -/
def goSub : Nat → RE → Option Char → List Char → List Char
  | _, _, _, [] => []
  | 0, _, _, s => s
  | f + 1, re, p, c :: rest =>
    match findAt re p (c :: rest) with
    | some (m, r, p') =>
      if m.isEmpty then c :: goSub f re (some c) rest
      else '¶' :: (m ++ goSub f re p' r)
    | none => c :: goSub f re (some c) rest

/-- Split the text at every non-overlapping leftmost match, as re.split
(keeping empty pieces, which the callers filter out). -/
def goSplit : Nat → RE → Option Char → List Char → List Char → List (List Char)
  | _, _, _, acc, [] => [acc.reverse]
  | 0, _, _, acc, s => [acc.reverse ++ s]
  | f + 1, re, p, acc, c :: rest =>
    match findAt re p (c :: rest) with
    | some (m, r, p') =>
      if m.isEmpty then goSplit f re (some c) (c :: acc) rest
      else acc.reverse :: goSplit f re p' [] r
    | none => goSplit f re (some c) (c :: acc) rest

/-- Python re.split. -/
def reSplit (re : RE) (s : List Char) : List (List Char) :=
  goSplit s.length re none [] s

/-- One or more repetitions, greedy. -/
def plusRE (a : RE) : RE := .seq a (.star a)

/-- Exactly n repetitions. -/
def repN (a : RE) : Nat → RE
  | 0 => .eps
  | n + 1 => .seq a (repN a n)

/-- Up to n repetitions, greedy. -/
def repUpTo (a : RE) : Nat → RE
  | 0 => .eps
  | n + 1 => .alt (.seq a (repUpTo a n)) .eps

/-- Between lo and hi repetitions, greedy. -/
def repRange (a : RE) (lo hi : Nat) : RE :=
  .seq (repN a lo) (repUpTo a (hi - lo))

/-- Left-to-right ordered alternation of a pattern list; the base never
matches, mirroring the alternation of the combined marker regex. -/
def altList (l : List RE) : RE :=
  l.foldr .alt (.cls fun _ => false)

/-- Case-insensitive literal pattern from a string. -/
def lci (s : String) : RE := .litCI s.data

/-- Digit character class. -/
def dRE : RE := .cls Char.isDigit

/-- Whitespace character class of the regexes. -/
def sRE : RE := .cls isPySpace

/-- MAX_W of clause_splitter.py: maximal words per clause. -/
def MAX_W : Nat := 150

/-- MIN_W of clause_splitter.py: minimal words to keep a clause. -/
def MIN_W : Nat := 20

/-- MARK_RE of clause_splitter.py: the ordered, case-insensitive
alternation of the thirteen clause-boundary marker patterns. -/
def MARK_RE : RE :=
  altList
    [ .seq (.lit ['\n']) (.seq (.star sRE) (.seq (plusRE dRE) (.lit ['.']))),
      .seq (.lit ['§']) (.seq (.star sRE) (plusRE dRE)),
      lci "Wir verpflichten uns",
      lci "Wir verzichten",
      lci "Auf die Einreden",
      lci "Diese Bürgschaft ist unbefristet",
      lci "Diese Bürgschaft erlischt",
      lci "Gerichtsstand ist",
      lci "unterliegt dem",
      lci "Sollte eine Bestimmung",
      lci "We undertake to",
      lci "We waive",
      .seq (lci "This guarantee ") (.alt (lci "shall") (lci "expires")) ]

/-- The splitting pattern of the first pass: the injected pilcrow or a run
of two or more newlines (HARD_RE). -/
def DELIM_RE : RE :=
  .alt (.lit ['¶'])
    (.seq (.lit ['\n', '\n']) (.star (.cls fun c => c = '\n')))

/-- SENT_RE of clause_splitter.py: whitespace preceded by a sentence-final
punctuation character, expressed with a lookbehind. -/
def SENT_RE : RE :=
  .seq (.lookPrev fun p => p = some '.' || p = some '!' || p = some '?')
    (plusRE sRE)

/-- inject_delims of clause_splitter.py: insert a pilcrow before every
marker match. -/
def inject_delims (text : String) : String :=
  ⟨goSub text.data.length MARK_RE none text.data⟩

/-- The sentence list an oversized block is broken into: split at sentence
boundaries, strip each piece, and keep the non-empty ones. -/
def sentencesOf (block : String) : List String :=
  (reSplit SENT_RE block.data).filterMap fun l =>
    let t := pyStrip ⟨l⟩
    if t = "" then none else some t

/-- The greedy sentence-packing loop of split_oversize: grow a buffer while
adding the next sentence stays within MAX_W words, else flush the buffer
and restart from that sentence. -/
def packSentences : List String → String → List String
  | [], buf => if buf ≠ "" then [pyStrip buf] else []
  | s :: rest, buf =>
    if MAX_W < wordCount (buf ++ " " ++ s) then
      (if buf ≠ "" then [pyStrip buf] else []) ++ packSentences rest s
    else
      packSentences rest (if buf = "" then s else pyStrip (buf ++ " " ++ s))

/-- split_oversize of clause_splitter.py. -/
def split_oversize (block : String) : List String :=
  if wordCount block ≤ MAX_W then [block]
  else packSentences (sentencesOf block) ""

/-- The first-pass pieces of split_clauses: normalise the text, inject the
marker delimiters, split on the delimiter or a hard break, strip each
piece and keep the non-empty ones. -/
def firstPass (text : String) : List String :=
  let normalized :=
    inject_delims (pyStrip ⟨collapseWS (replaceCRLF text.data)⟩)
  (reSplit DELIM_RE normalized.data).filterMap fun l =>
    let t := pyStrip ⟨l⟩
    if t = "" then none else some t

/-- split_clauses of clause_splitter.py.  The Python function returns a
list of singleton dictionaries holding the clause text; the embedding
returns the clause strings in the same order. -/
def split_clauses (text : String) : List String :=
  if pyStrip text = "" then []
  else
    (firstPass text).flatMap fun piece =>
      (split_oversize piece).filter fun chunk => MIN_W ≤ wordCount chunk

/-- Fuelled longest-common-subsequence computation; the fuel makes the
recursion structural and kernel-computable, and the combined length of the
two lists is always enough fuel. -/
def lcsFuel : Nat → List Char → List Char → Nat
  | 0, _, _ => 0
  | _ + 1, [], _ => 0
  | _ + 1, _ :: _, [] => 0
  | f + 1, a :: as, b :: bs =>
    if a = b then lcsFuel f as bs + 1
    else max (lcsFuel f (a :: as) bs) (lcsFuel f as (b :: bs))

/-- Longest common subsequence length, the core of the indel similarity
underlying the fuzzy ratio. -/
def lcs (a b : List Char) : Nat :=
  lcsFuel (a.length + b.length) a b

/-- Normalised indel similarity of two character lists in [0, 100]. -/
def ratioQ (a b : List Char) : ℚ :=
  if a.length + b.length = 0 then 100
  else Rat.divInt (200 * (lcs a b : Int)) ((a.length : Int) + (b.length : Int))

/-- All contiguous substrings of a character list. -/
def substrsOf (l : List Char) : List (List Char) :=
  l.tails.flatMap fun t => t.inits

/-- Modelled from the spec: the substring-tolerant fuzzy similarity score
in [0, 100] of the rapidfuzz library (an external collaborator of
evaluate_file.py, not part of this repository).  The shorter string is
aligned against every contiguous substring of the longer one and the best
normalised indel similarity is returned, which rewards a pattern occurring
anywhere inside the clause. -/
def fuzzPartialRatio (s1 s2 : String) : ℚ :=
  ((substrsOf (if s1.data.length ≤ s2.data.length then s2.data else s1.data)).map
      fun w =>
        ratioQ (if s1.data.length ≤ s2.data.length then s1.data else s2.data) w).foldl
    max 0

/-- Modelled from the spec: Python str.lower composed with the unidecode
library (an external collaborator, not part of this repository), which
strips diacritics to ASCII.  The table covers the diacritics occurring in
the rule patterns and sample documents; other non-ASCII characters are
dropped. -/
def unidecodeLowerChar (c : Char) : List Char :=
  let lowered :=
    if 'A' ≤ c && c ≤ 'Z' then c.toLower
    else if c = 'Ä' then 'ä' else if c = 'Ö' then 'ö'
    else if c = 'Ü' then 'ü' else if c = 'É' then 'é' else c
  if lowered = 'ä' then ['a'] else if lowered = 'ö' then ['o']
  else if lowered = 'ü' then ['u'] else if lowered = 'é' then ['e']
  else if lowered = 'è' then ['e'] else if lowered = 'à' then ['a']
  else if lowered = 'ß' then ['s', 's']
  else if lowered.toNat < 128 then [lowered] else []

/-- normalize_text of evaluate_file.py: lowercase and remove diacritics. -/
def normalize_text (s : String) : String :=
  ⟨s.data.flatMap unidecodeLowerChar⟩

/-- Render an integer count of hundredths as a two-decimals string,
modelling the fixed-point formatting of the score in the fuzzy evidence;
the hundredths are obtained as the floor of a hundred times the value. -/
def fmt2 (q : ℚ) : String :=
  let c : Int := Rat.floor (Rat.divInt (q.num * 100) (q.den : Int))
  toString (c / 100) ++ "." ++
    (if (c % 100).toNat < 10 then "0" else "") ++ toString (c % 100).toNat

/-- Render a threshold number the way a Python f-string renders a
JSON-loaded integer. -/
def pyNum (q : ℚ) : String :=
  if q.den = 1 then toString q.num else fmt2 q

/-- Render an optional threshold, None included, as a Python f-string
does. -/
def pyOptNum : Option ℚ → String
  | none => "None"
  | some q => pyNum q

/-- Python repr of a list of strings, used when evidence interpolates a
list of values. -/
def pyStrList (l : List String) : String :=
  "[" ++ String.intercalate ", " (l.map fun s => "'" ++ s ++ "'") ++ "]"

/-- Python repr of a list of integers. -/
def pyIntList (l : List Nat) : String :=
  "[" ++ String.intercalate ", " (l.map toString) ++ "]"

/-- Apply an optional processor, as rapidfuzz does to the query and to
every choice before scoring. -/
def procApply (proc : Option (String → String)) (t : String) : String :=
  match proc with
  | some f => f t
  | none => t

/-- Fold keeping the first choice attaining the maximal score. -/
def bestFold (sc : String → ℚ) (b : String × ℚ) (cs : List String) :
    String × ℚ :=
  cs.foldl (fun best ch => if best.2 < sc ch then (ch, sc ch) else best) b

/-- rapidfuzz process.extractOne: apply the optional processor to the query
and to every choice, score each choice, and return the first choice
attaining the maximal score together with that score; None on an empty
choice list. -/
def extractOne (scorer : String → String → ℚ) (proc : Option (String → String))
    (query : String) (choices : List String) : Option (String × ℚ) :=
  match choices with
  | [] => none
  | c :: cs =>
    some
      (bestFold
        (fun ch => scorer (procApply proc query) (procApply proc ch))
        (c, scorer (procApply proc query) (procApply proc c)) cs)

/-- The patterns mapping of a rule: each tier key of the Python dict is
optional (a missing key is none). -/
structure Patterns where
  green : Option (List String)
  yellow : Option (List String)
  red : Option (List String)
deriving DecidableEq

/-- The thresholds mapping of a rule: every parameter key accessed by the
handlers, each optional. -/
structure Thresholds where
  green : Option ℚ
  yellow : Option ℚ
  amount_presence : Option Bool
  green_max_years : Option ℚ
  green_min_days : Option ℚ
  green_max_percent : Option ℚ
deriving DecidableEq

/-- A rule record as loaded from the declarative rule set.  The id, name
and type keys are always present in the rule files; the patterns and
thresholds dicts may be missing, and accessing a missing one raises a
KeyError in Python, modelled as the error branch of Except. -/
structure Rule where
  id : String
  name : String
  type : String
  patterns : Option Patterns
  thresholds : Option Thresholds
deriving DecidableEq

/-- Python rule["patterns"]: KeyError when the key is missing. -/
def getPatterns (r : Rule) : Except String Patterns :=
  match r.patterns with
  | none => .error "KeyError: 'patterns'"
  | some pm => .ok pm

/-- Python rule["thresholds"]: KeyError when the key is missing. -/
def getThresholds (r : Rule) : Except String Thresholds :=
  match r.thresholds with
  | none => .error "KeyError: 'thresholds'"
  | some th => .ok th

/-- The pooled pattern list of the fuzzy handler: green, yellow and red
tiers concatenated, a missing tier contributing nothing. -/
def allPatterns (pm : Patterns) : List String :=
  pm.green.getD [] ++ pm.yellow.getD [] ++ pm.red.getD []

/-- check_fuzzy of evaluate_file.py. -/
def check_fuzzy (clause_text : String) (rule : Rule) :
    Except String (String × String) :=
  match rule.patterns with
  | none => .error "KeyError: 'patterns'"
  | some pm =>
    let all_patterns := allPatterns pm
    if all_patterns.isEmpty then
      .ok ("N/A", "No patterns defined for fuzzy rule.")
    else
      match extractOne fuzzPartialRatio (some normalize_text) clause_text
          all_patterns with
      | none => .error "TypeError: cannot unpack non-iterable NoneType object"
      | some (mtch, score) =>
        match rule.thresholds with
        | none => .error "KeyError: 'thresholds'"
        | some th =>
          let green_threshold := th.green.getD 90
          let yellow_threshold := th.yellow.getD 75
          let color :=
            if green_threshold ≤ score then "GREEN"
            else if yellow_threshold ≤ score then "YELLOW"
            else "RED"
          .ok (color, "Best match: '" ++ mtch ++ "' with score " ++ fmt2 score)

/-- The plain integer runs the numeric handlers extract from a clause. -/
def extractNums (clause_text : String) : List Nat :=
  (reFindAll (plusRE dRE) clause_text.data).map fun m =>
    m.foldl (fun n c => n * 10 + (c.toNat - 48)) 0

/-- The percent-suffixed numbers of the numeric_percentage branch: digit
runs followed by optional whitespace and a percent sign; the regex group
is the digit run. -/
def percNums (clause_text : String) : List Nat :=
  (reFindAll (.seq (plusRE dRE) (.seq (.star sRE) (.lit ['%'])))
      clause_text.data).map fun m =>
    (m.takeWhile Char.isDigit).foldl (fun n c => n * 10 + (c.toNat - 48)) 0

/-- The terminal return of check_numeric, also reached by fall-through when
a type-specific branch declines to return. -/
def numericFallThrough (rule_type : String) : Except String (String × String) :=
  .ok ("N/A",
    "Numeric rule type '" ++ rule_type ++ "' logic not fully implemented.")

/-- The RED evidence of the numeric_days branch; min_days may be None. -/
def noPeriodMsg (md : Option ℚ) : String :=
  "No payment period of at least " ++ pyOptNum md ++ " days found."

/-- The vague-term fallback of the numeric_days branch: when the patterns
dict has a yellow key, fuzzy-match the raw clause against it (score above
80 gives YELLOW), otherwise RED.  A missing patterns dict raises KeyError;
an empty yellow list makes extractOne return None, whose unpacking raises
TypeError. -/
def numericDaysFallback (clause_text : String) (rule : Rule) (md : Option ℚ) :
    Except String (String × String) :=
  match rule.patterns with
  | none => .error "KeyError: 'patterns'"
  | some pm =>
    match pm.yellow with
    | some ys =>
      match extractOne fuzzPartialRatio none clause_text ys with
      | none => .error "TypeError: cannot unpack non-iterable NoneType object"
      | some (mtch, score) =>
        if 80 < score then .ok ("YELLOW", "Vague term found: '" ++ mtch ++ "'")
        else .ok ("RED", noPeriodMsg md)
    | none => .ok ("RED", noPeriodMsg md)

/-- check_numeric of evaluate_file.py.  The Python function is a chain of
type-tested blocks each ending in a return; a block that does not return
falls through to the terminal catch-all return. -/
def check_numeric (clause_text : String) (rule : Rule) :
    Except String (String × String) :=
  let rule_type := rule.type
  let nums := extractNums clause_text
  if rule_type = "numeric_amount" then
    match rule.thresholds with
    | none => .error "KeyError: 'thresholds'"
    | some th =>
      if th.amount_presence.getD false then
        if nums.isEmpty then .ok ("RED", "No amount found.")
        else .ok ("GREEN", "Found potential amount(s): " ++ pyIntList nums)
      else numericFallThrough rule_type
  else if rule_type = "numeric_years" then
    if nums.isEmpty then .ok ("N/A", "No year value found.")
    else
      match rule.thresholds with
      | none => .error "KeyError: 'thresholds'"
      | some th =>
        let max_years := th.green_max_years.getD 6
        if nums.any fun n => (n : ℚ) ≤ max_years then
          .ok ("GREEN", "Found term <= " ++ pyNum max_years ++ " years.")
        else
          .ok ("RED", "Found term > " ++ pyNum max_years ++ " years: " ++
            toString (nums.headD 0))
  else if rule_type = "numeric_days" then
    match rule.thresholds with
    | none => .error "KeyError: 'thresholds'"
    | some th =>
      let md := th.green_min_days
      if nums.isEmpty then numericDaysFallback clause_text rule md
      else
        match md with
        | none =>
          .error
            "TypeError: '>=' not supported between instances of 'int' and 'NoneType'"
        | some min_days =>
          if nums.any fun n => min_days ≤ (n : ℚ) then
            .ok ("GREEN",
              "Payment period of >= " ++ pyNum min_days ++ " days found.")
          else numericDaysFallback clause_text rule md
  else if rule_type = "numeric_percentage" then
    let perc_nums := percNums clause_text
    if perc_nums.isEmpty then .ok ("N/A", "No percentage value found.")
    else
      match rule.thresholds with
      | none => .error "KeyError: 'thresholds'"
      | some th =>
        match th.green_max_percent with
        | none =>
          .error
            "TypeError: '<=' not supported between instances of 'int' and 'NoneType'"
        | some max_perc =>
          if perc_nums.any fun p => (p : ℚ) ≤ max_perc then
            .ok ("GREEN", "Found percentage <= " ++ pyNum max_perc ++ "%.")
          else
            .ok ("RED", "Found percentage > " ++ pyNum max_perc ++ "%: " ++
              toString (perc_nums.headD 0) ++ "%")
  else numericFallThrough rule_type

/-- check_presence_inverse of evaluate_file.py: fuzzy-match the raw clause
(no processor, hence no lower-casing and no diacritic stripping) against
the red pattern list. -/
def check_presence_inverse (clause_text : String) (rule : Rule) :
    Except String (String × String) :=
  match rule.patterns with
  | none => .error "KeyError: 'patterns'"
  | some pm =>
    let patterns := pm.red.getD []
    if patterns.isEmpty then
      .ok ("N/A", "No red patterns defined for inverse presence rule.")
    else
      match extractOne fuzzPartialRatio none clause_text patterns with
      | none => .error "TypeError: cannot unpack non-iterable NoneType object"
      | some (mtch, score) =>
        if 90 < score then .ok ("RED", "Found forbidden term: '" ++ mtch ++ "'")
        else .ok ("GREEN", "No forbidden terms found.")

/-- check_not_implemented of evaluate_file.py. -/
def check_not_implemented (clause_text : String) (rule : Rule) :
    Except String (String × String) :=
  .ok ("N/A", "Rule type '" ++ rule.type ++ "' not implemented.")

/-- check_grammar_count of evaluate_file.py.  The language tool is an
external collaborator, passed as a function that either returns a grammar
error count or raises; the handler catches every exception of the tool and
degrades to N/A. -/
def check_grammar_count (tool : String → Except String Nat)
    (clause_text : String) (rule : Rule) : Except String (String × String) :=
  match tool clause_text with
  | .ok error_count =>
    .ok
      (if error_count = 0 then "GREEN"
        else if error_count ≤ 5 then "YELLOW" else "RED",
      "Found " ++ toString error_count ++ " grammar errors.")
  | .error e => .ok ("N/A", "Grammar check failed: " ++ e)

/-- The cross-clause facts extracted from one clause by
check_cross_clause_data. -/
structure CrossData where
  amounts : List String
  currencies : List String
  contract_nos : List String
deriving DecidableEq

/-- The amount token regex of check_cross_clause_data: a word boundary, one
to three digits, optional thousand groups separated by a comma or dot, an
optional dot-decimal part, and a word boundary. -/
def amountRE : RE :=
  .seq .bnd
    (.seq (repRange dRE 1 3)
      (.seq (.star (.seq (.cls fun c => c = ',' || c = '.') (repN dRE 3)))
        (.seq (.alt (.seq (.lit ['.']) (plusRE dRE)) .eps) .bnd)))

/-- The currency token regex: a three-letter uppercase code between word
boundaries, or one of the four currency symbols. -/
def currencyRE : RE :=
  .alt (.seq .bnd (.seq (repN (.cls fun c => 'A' ≤ c && c ≤ 'Z') 3) .bnd))
    (.cls fun c => c = '$' || c = '€' || c = '£' || c = '¥')

/-- The contract number regex: PR plus nine digits between word
boundaries. -/
def contractRE : RE :=
  .seq .bnd (.seq (.lit ['P', 'R', '+']) (.seq (repN dRE 9) .bnd))

/-- check_cross_clause_data of evaluate_file.py. -/
def check_cross_clause_data (clause_text : String) : CrossData :=
  { amounts := (reFindAll amountRE clause_text.data).map fun l => ⟨l⟩
    currencies := (reFindAll currencyRE clause_text.data).map fun l => ⟨l⟩
    contract_nos := (reFindAll contractRE clause_text.data).map fun l => ⟨l⟩ }

/-- A document-level record of the final output. -/
structure DocRecord where
  rule_name : String
  color : String
  evidence : String
deriving DecidableEq

/-- The distinct values of a token list in first-occurrence order,
modelling the Python set built over it; only cardinality and membership
are semantically relevant. -/
def uniqueVals (l : List String) : List String :=
  l.foldl (fun acc x => if x ∈ acc then acc else acc ++ [x]) []

/-- perform_final_cross_clause_check of evaluate_file.py. -/
def perform_final_cross_clause_check (all_clause_data : List CrossData) :
    List DocRecord :=
  let all_amounts := all_clause_data.flatMap (·.amounts)
  let all_currencies := all_clause_data.flatMap (·.currencies)
  let all_contract_nos := all_clause_data.flatMap (·.contract_nos)
  let unique_amounts := uniqueVals all_amounts
  let unique_currencies := uniqueVals all_currencies
  let unique_contract_nos := uniqueVals all_contract_nos
  let color0 := "GREEN"
  let evidence0 := "All values are consistent across clauses."
  let state1 :=
    if 1 < unique_amounts.length then
      ("RED", "Inconsistent amounts found: " ++ pyStrList unique_amounts)
    else (color0, evidence0)
  let state2 :=
    if 1 < unique_currencies.length then
      ("RED", state1.2 ++ " Inconsistent currencies found: " ++
        pyStrList unique_currencies)
    else state1
  let state3 :=
    if 1 < unique_contract_nos.length then
      ("RED", state2.2 ++ " Inconsistent contract numbers found: " ++
        pyStrList unique_contract_nos)
    else state2
  [{ rule_name := "Cross-Clause Consistency", color := state3.1,
     evidence := state3.2 }]

/-- A clause-level evaluation record of the final output. -/
structure EvalRecord where
  rule_id : String
  rule_name : String
  score : String
  details : String
deriving DecidableEq

/-- The keys of the DISPATCH table of evaluate_file.py, in table order. -/
def DISPATCH_types : List String :=
  ["fuzzy", "numeric_years", "numeric_days", "numeric_amount",
   "numeric_percentage", "presence_inverse", "format", "ocr_confidence",
   "grammar_count"]

/-- The handler the DISPATCH table associates with a rule type. -/
def dispatch (tool : String → Except String Nat) (rule_type : String)
    (clause_text : String) (rule : Rule) : Except String (String × String) :=
  if rule_type = "fuzzy" then check_fuzzy clause_text rule
  else if rule_type = "numeric_years" || rule_type = "numeric_days" ||
      rule_type = "numeric_amount" || rule_type = "numeric_percentage" then
    check_numeric clause_text rule
  else if rule_type = "presence_inverse" then
    check_presence_inverse clause_text rule
  else if rule_type = "format" || rule_type = "ocr_confidence" then
    check_not_implemented clause_text rule
  else if rule_type = "grammar_count" then
    check_grammar_count tool clause_text rule
  else .error "KeyError: rule type has no handler"

/-- evaluate_clause of evaluate_file.py: for every rule whose type is a
key of the dispatch table, call its handler and collect one record; a rule
without a handler contributes nothing.  A handler exception propagates,
there is no try block around the handler call. -/
def evaluate_clause (tool : String → Except String Nat)
    (clause_text : String) : List Rule → Except String (List EvalRecord)
  | [] => .ok []
  | rule :: rest =>
    if rule.type ∈ DISPATCH_types then
      match dispatch tool rule.type clause_text rule with
      | .error e => .error e
      | .ok (color, evidence) =>
        match evaluate_clause tool clause_text rest with
        | .error e => .error e
        | .ok tail =>
          .ok ({ rule_id := rule.id, rule_name := rule.name, score := color,
                 details := evidence } :: tail)
    else evaluate_clause tool clause_text rest

/-- A clause-level entry of the final output. -/
structure ClauseEval where
  clause_number : Nat
  clause_text : String
  evaluations : List EvalRecord
deriving DecidableEq

/-- The per-clause loop of run_evaluation: number the clauses from one,
evaluate each against the rules, and extract its cross-clause facts. -/
def evalLoop (tool : String → Except String Nat) (rules : List Rule) :
    Nat → List String → Except String (List ClauseEval × List CrossData)
  | _, [] => .ok ([], [])
  | i, c :: cs =>
    match evaluate_clause tool c rules with
    | .error e => .error e
    | .ok evals =>
      match evalLoop tool rules (i + 1) cs with
      | .error e => .error e
      | .ok (tailEvals, tailData) =>
        .ok
          ({ clause_number := i, clause_text := c, evaluations := evals } ::
              tailEvals,
            check_cross_clause_data c :: tailData)

/-- The evaluation core of run_evaluation of evaluate_file.py: split the
text into clauses, evaluate every clause against every dispatched rule,
and close with the document-level cross-clause consistency record.  File
reading and JSON serialisation of the host are out of scope. -/
def run_evaluation (tool : String → Except String Nat) (text : String)
    (rules : List Rule) :
    Except String (List ClauseEval × List DocRecord) :=
  match evalLoop tool rules 1 (split_clauses text) with
  | .error e => .error e
  | .ok (clause_level_results, cross_clause_data) =>
    .ok (clause_level_results,
      perform_final_cross_clause_check cross_clause_data)

/-- A fuzzy rule with explicit green and yellow thresholds and a fixed
pattern configuration, used to state the threshold monotonicity claim. -/
def mkFuzzyRule (pm : Patterns) (g y : ℚ) : Rule :=
  { id := "F", name := "Fuzzy", type := "fuzzy", patterns := some pm,
    thresholds :=
      some
        { green := some g, yellow := some y, amount_presence := none,
          green_max_years := none, green_min_days := none,
          green_max_percent := none } }

/-- Modelled from the spec: the set of numbers the claim about the
percentage handler asserts are considered, namely digit runs immediately
followed by a percent character with nothing in between.  The source regex
instead allows whitespace before the percent sign; this definition exists
to exhibit that divergence. -/
def immediatePercentNums (clause_text : String) : List Nat :=
  (reFindAll (.seq (plusRE dRE) (.lit ['%'])) clause_text.data).map fun m =>
    (m.takeWhile Char.isDigit).foldl (fun n c => n * 10 + (c.toNat - 48)) 0

theorem dropWhile_idem (p : Char → Bool) (l : List Char) :
    List.dropWhile p (List.dropWhile p l) = List.dropWhile p l := by
  induction l with
  | nil => rfl
  | cons c t ih =>
    cases hc : p c with
    | true => simp [List.dropWhile_cons, hc, ih]
    | false => simp [List.dropWhile_cons, hc]

theorem head_false_of_dropWhile_self (p : Char → Bool) (c : Char)
    (t : List Char) (h : List.dropWhile p (c :: t) = c :: t) : p c = false := by
  cases hc : p c with
  | false => rfl
  | true =>
    exfalso
    rw [List.dropWhile_cons, if_pos hc] at h
    have h1 := congrArg List.length h
    have h2 := (List.dropWhile_sublist (l := t) p).length_le
    simp only [List.length_cons] at h1
    omega

theorem stripR_decomp (l : List Char) :
    ∃ w, l = (l.reverse.dropWhile isPySpace).reverse ++ w ∧
      ∀ c ∈ w, isPySpace c = true := by
  refine ⟨(l.reverse.takeWhile isPySpace).reverse, ?_, ?_⟩
  · have h := List.takeWhile_append_dropWhile (p := isPySpace) (l := l.reverse)
    have h2 : l =
        (l.reverse.takeWhile isPySpace ++ l.reverse.dropWhile isPySpace).reverse := by
      rw [h, List.reverse_reverse]
    rw [List.reverse_append] at h2
    exact h2
  · intro c hc
    exact List.mem_takeWhile_imp (List.mem_reverse.mp hc)

theorem pyStripList_idem (l : List Char) :
    pyStripList (pyStripList l) = pyStripList l := by
  unfold pyStripList
  set m := List.dropWhile isPySpace l with hm
  set y := (m.reverse.dropWhile isPySpace).reverse with hy
  have hmd : List.dropWhile isPySpace m = m := by rw [hm]; exact dropWhile_idem _ _
  have hstep1 : List.dropWhile isPySpace y = y := by
    rcases stripR_decomp m with ⟨w, hdec, hw⟩
    rw [← hy] at hdec
    cases hyy : y with
    | nil => rfl
    | cons c t =>
      have hself : List.dropWhile isPySpace (c :: (t ++ w)) = c :: (t ++ w) := by
        rw [← List.cons_append, ← hyy, ← hdec]
        exact hmd
      have hc := head_false_of_dropWhile_self _ _ _ hself
      rw [List.dropWhile_cons, if_neg (by simp [hc])]
  have hstep2 : (y.reverse.dropWhile isPySpace).reverse = y := by
    rw [hy, List.reverse_reverse, dropWhile_idem]
  rw [hstep1, hstep2]

theorem pyStrip_idem (s : String) : pyStrip (pyStrip s) = pyStrip s := by
  apply String.ext
  exact pyStripList_idem s.data

theorem pySplitAux_dropWhile (l : List Char) :
    pySplitAux (List.dropWhile isPySpace l) [] = pySplitAux l [] := by
  induction l with
  | nil => rfl
  | cons c t ih =>
    cases hc : isPySpace c with
    | false => rw [List.dropWhile_cons, if_neg (by simp [hc])]
    | true =>
      rw [List.dropWhile_cons, if_pos hc, ih]
      simp [pySplitAux, hc]

theorem pySplitAux_spaces : ∀ (ws : List Char),
    (∀ c ∈ ws, isPySpace c = true) → ∀ (acc : List Char),
      pySplitAux ws acc = if acc.isEmpty then [] else [acc.reverse]
  | [], _, _ => rfl
  | c :: t, hws, acc => by
    have hc : isPySpace c = true := hws c (List.mem_cons_self c t)
    have ht : ∀ x ∈ t, isPySpace x = true :=
      fun x hx => hws x (List.mem_cons_of_mem _ hx)
    have iht := pySplitAux_spaces t ht []
    cases acc with
    | nil => simpa [pySplitAux, hc] using iht
    | cons a as => simp [pySplitAux, hc, iht]

theorem pySplitAux_append_spaces (ws : List Char)
    (hws : ∀ c ∈ ws, isPySpace c = true) :
    ∀ (z acc : List Char), pySplitAux (z ++ ws) acc = pySplitAux z acc
  | [], acc => by
    rw [List.nil_append, pySplitAux_spaces ws hws acc]
    rfl
  | c :: z, acc => by
    cases hc : isPySpace c with
    | true =>
      simp [pySplitAux, hc, pySplitAux_append_spaces ws hws z]
    | false =>
      simp [pySplitAux, hc, pySplitAux_append_spaces ws hws z]

theorem wordCount_strip (s : String) : wordCount (pyStrip s) = wordCount s := by
  show (pySplitAux (pyStripList s.data) []).length = (pySplitAux s.data []).length
  set m := List.dropWhile isPySpace s.data with hm
  rcases stripR_decomp m with ⟨w, hdec, hw⟩
  have h1 : pySplitAux (pyStripList s.data) [] = pySplitAux m [] := by
    unfold pyStripList
    rw [← hm]
    conv_rhs => rw [hdec]
    rw [pySplitAux_append_spaces w hw]
  rw [h1, hm, pySplitAux_dropWhile]

theorem sentencesOf_strip_fixed (b x : String) (hx : x ∈ sentencesOf b) :
    pyStrip x = x := by
  unfold sentencesOf at hx
  rcases List.mem_filterMap.mp hx with ⟨l, _, hl⟩
  by_cases ht : pyStrip ⟨l⟩ = ""
  · simp only [ht, if_pos] at hl
    exact absurd hl (by simp)
  · simp only [if_neg ht] at hl
    have := Option.some.inj hl
    rw [← this]
    exact pyStrip_idem _

theorem packSentences_mem (S : List String)
    (hS : ∀ x ∈ S, pyStrip x = x) :
    ∀ (ss : List String) (buf : String), (∀ x ∈ ss, x ∈ S) →
      (wordCount buf ≤ MAX_W ∨ buf ∈ S) →
      ∀ c ∈ packSentences ss buf, wordCount c ≤ MAX_W ∨ c ∈ S
  | [], buf, _, hbuf, c, hc => by
    rw [packSentences] at hc
    by_cases hb : buf ≠ ""
    · rw [if_pos hb] at hc
      have hcb : c = pyStrip buf := by simpa using hc
      rcases hbuf with h | h
      · left; rw [hcb, wordCount_strip]; exact h
      · right; rw [hcb, hS buf h]; exact h
    · rw [if_neg hb] at hc
      exact absurd hc (by simp)
  | s :: rest, buf, hss, hbuf, c, hc => by
    have hsS : s ∈ S := hss s (List.mem_cons_self s rest)
    have hrest : ∀ x ∈ rest, x ∈ S := fun x hx => hss x (List.mem_cons_of_mem _ hx)
    rw [packSentences] at hc
    by_cases hM : MAX_W < wordCount (buf ++ " " ++ s)
    · rw [if_pos hM] at hc
      rcases List.mem_append.mp hc with h1 | h2
      · by_cases hb : buf ≠ ""
        · rw [if_pos hb] at h1
          have hcb : c = pyStrip buf := by simpa using h1
          rcases hbuf with h | h
          · left; rw [hcb, wordCount_strip]; exact h
          · right; rw [hcb, hS buf h]; exact h
        · rw [if_neg hb] at h1
          exact absurd h1 (by simp)
      · exact packSentences_mem S hS rest s hrest (Or.inr hsS) c h2
    · rw [if_neg hM] at hc
      refine packSentences_mem S hS rest _ hrest ?_ c hc
      by_cases hb : buf = ""
      · rw [if_pos hb]
        exact Or.inr hsS
      · rw [if_neg hb]
        left
        rw [wordCount_strip]
        omega

theorem split_oversize_mem (block c : String) (hc : c ∈ split_oversize block) :
    wordCount c ≤ MAX_W ∨ c ∈ sentencesOf block := by
  rw [split_oversize] at hc
  by_cases h : wordCount block ≤ MAX_W
  · rw [if_pos h] at hc
    have : c = block := by simpa using hc
    left; rw [this]; exact h
  · rw [if_neg h] at hc
    exact packSentences_mem (sentencesOf block)
      (fun x hx => sentencesOf_strip_fixed block x hx)
      (sentencesOf block) "" (fun x hx => hx)
      (Or.inl (by decide)) c hc

/-- C1: every clause returned by the splitter has at least MIN_W words
(smaller candidates are discarded by the final filter, never padded or
merged), and has at most MAX_W words unless it is one of the single
sentences an oversized first-pass piece was broken into, which may
itself exceed MAX_W. -/
theorem C1_splitter_bounds (text c : String) (hc : c ∈ split_clauses text) :
    MIN_W ≤ wordCount c ∧
      (wordCount c ≤ MAX_W ∨ ∃ p ∈ firstPass text, c ∈ sentencesOf p) := by
  rw [split_clauses] at hc
  by_cases h0 : pyStrip text = ""
  · rw [if_pos h0] at hc
    exact absurd hc (by simp)
  · rw [if_neg h0] at hc
    rcases List.mem_flatMap.mp hc with ⟨p, hp, hcp⟩
    rcases List.mem_filter.mp hcp with ⟨hmem, hmin⟩
    refine ⟨by simpa using hmin, ?_⟩
    rcases split_oversize_mem p c hmem with h | h
    · exact Or.inl h
    · exact Or.inr ⟨p, hp, h⟩

/-- Witness for C1 at a concrete twenty-word document that the splitter
keeps as a single clause. -/
theorem C1_witness :
    ("a b c d e f g h i j k l m n o p q r s t" : String) ∈
        split_clauses "a b c d e f g h i j k l m n o p q r s t" ∧
      MIN_W ≤ wordCount "a b c d e f g h i j k l m n o p q r s t" := by
  have hm : ("a b c d e f g h i j k l m n o p q r s t" : String) ∈
      split_clauses "a b c d e f g h i j k l m n o p q r s t" := by
    rw [show split_clauses "a b c d e f g h i j k l m n o p q r s t" =
        ["a b c d e f g h i j k l m n o p q r s t"] from by decide]
    exact List.mem_singleton_self _
  exact ⟨hm, (C1_splitter_bounds _ _ hm).1⟩

theorem lcsFuel_le_left : ∀ (f : Nat) (a b : List Char),
    lcsFuel f a b ≤ a.length
  | 0, _, _ => Nat.zero_le _
  | _ + 1, [], _ => Nat.zero_le _
  | _ + 1, _ :: _, [] => by simp [lcsFuel]
  | f + 1, a :: as, b :: bs => by
    rw [lcsFuel]
    split
    · have := lcsFuel_le_left f as bs
      simp only [List.length_cons]
      omega
    · have h1 := lcsFuel_le_left f (a :: as) bs
      have h2 := lcsFuel_le_left f as (b :: bs)
      simp only [List.length_cons] at h1 h2 ⊢
      exact max_le h1 (by omega)

theorem lcsFuel_le_right : ∀ (f : Nat) (a b : List Char),
    lcsFuel f a b ≤ b.length
  | 0, _, _ => Nat.zero_le _
  | _ + 1, [], _ => Nat.zero_le _
  | _ + 1, _ :: _, [] => by simp [lcsFuel]
  | f + 1, a :: as, b :: bs => by
    rw [lcsFuel]
    split
    · have := lcsFuel_le_right f as bs
      simp only [List.length_cons]
      omega
    · have h1 := lcsFuel_le_right f (a :: as) bs
      have h2 := lcsFuel_le_right f as (b :: bs)
      simp only [List.length_cons] at h1 h2 ⊢
      exact max_le (by omega) h2

theorem ratioQ_nonneg (a b : List Char) : 0 ≤ ratioQ a b := by
  unfold ratioQ
  split
  · norm_num
  · rw [Rat.divInt_eq_div]
    apply div_nonneg
    · push_cast
      positivity
    · push_cast
      positivity

theorem ratioQ_le_100 (a b : List Char) : ratioQ a b ≤ 100 := by
  unfold ratioQ
  split
  · exact le_refl _
  · next h =>
    have hpos : 0 < a.length + b.length := Nat.pos_of_ne_zero h
    have h1 : lcs a b ≤ a.length := lcsFuel_le_left _ _ _
    have h2 : lcs a b ≤ b.length := lcsFuel_le_right _ _ _
    have h1q : (lcs a b : ℚ) ≤ (a.length : ℚ) := by exact_mod_cast h1
    have h2q : (lcs a b : ℚ) ≤ (b.length : ℚ) := by exact_mod_cast h2
    rw [Rat.divInt_eq_div]
    rw [div_le_iff₀ (by push_cast; exact_mod_cast hpos)]
    push_cast
    linarith [h1q, h2q]

theorem le_foldl_max : ∀ (l : List ℚ) (q : ℚ), q ≤ l.foldl max q
  | [], _ => le_refl _
  | x :: xs, q =>
    le_trans (le_max_left q x) (le_foldl_max xs (max q x))

theorem foldl_max_le_100 : ∀ (l : List ℚ) (q : ℚ), q ≤ 100 →
    (∀ x ∈ l, x ≤ 100) → l.foldl max q ≤ 100
  | [], _, hq, _ => hq
  | x :: xs, q, hq, hl =>
    foldl_max_le_100 xs (max q x)
      (max_le hq (hl x (List.mem_cons_self x xs)))
      (fun y hy => hl y (List.mem_cons_of_mem _ hy))

theorem fuzzPartialRatio_nonneg (s1 s2 : String) :
    0 ≤ fuzzPartialRatio s1 s2 := by
  unfold fuzzPartialRatio
  exact le_foldl_max _ 0

theorem fuzzPartialRatio_le_100 (s1 s2 : String) :
    fuzzPartialRatio s1 s2 ≤ 100 := by
  unfold fuzzPartialRatio
  apply foldl_max_le_100 _ _ (by norm_num)
  intro x hx
  rcases List.mem_map.mp hx with ⟨w, _, hw⟩
  rw [← hw]
  exact ratioQ_le_100 _ _

theorem bestFold_spec (sc : String → ℚ) :
    ∀ (cs : List String) (b : String × ℚ), b.2 = sc b.1 →
      ((bestFold sc b cs).1 = b.1 ∨ (bestFold sc b cs).1 ∈ cs) ∧
        (bestFold sc b cs).2 = sc (bestFold sc b cs).1 ∧
        b.2 ≤ (bestFold sc b cs).2 ∧
        ∀ p ∈ cs, sc p ≤ (bestFold sc b cs).2
  | [], b, hb => ⟨Or.inl rfl, hb, le_refl _, by simp⟩
  | ch :: cs, b, hb => by
    by_cases hlt : b.2 < sc ch
    · have hstep : bestFold sc b (ch :: cs) = bestFold sc (ch, sc ch) cs := by
        rw [bestFold, List.foldl_cons, if_pos hlt, ← bestFold]
      obtain ⟨ih1, ih2, ih3, ih4⟩ := bestFold_spec sc cs (ch, sc ch) rfl
      rw [hstep]
      refine ⟨?_, ih2, le_trans (le_of_lt hlt) ih3, ?_⟩
      · rcases ih1 with h | h
        · exact Or.inr (by rw [h]; exact List.mem_cons_self ch cs)
        · exact Or.inr (List.mem_cons_of_mem _ h)
      · intro p hp
        rcases List.mem_cons.mp hp with h | h
        · rw [h]
          exact ih3
        · exact ih4 p h
    · have hstep : bestFold sc b (ch :: cs) = bestFold sc b cs := by
        rw [bestFold, List.foldl_cons, if_neg hlt, ← bestFold]
      obtain ⟨ih1, ih2, ih3, ih4⟩ := bestFold_spec sc cs b hb
      rw [hstep]
      refine ⟨?_, ih2, ih3, ?_⟩
      · rcases ih1 with h | h
        · exact Or.inl h
        · exact Or.inr (List.mem_cons_of_mem _ h)
      · intro p hp
        rcases List.mem_cons.mp hp with h | h
        · rw [h]
          exact le_trans (le_of_not_lt hlt) ih3
        · exact ih4 p h

theorem extractOne_spec (scorer : String → String → ℚ)
    (proc : Option (String → String)) (query : String) (choices : List String)
    (m : String) (s : ℚ)
    (h : extractOne scorer proc query choices = some (m, s)) :
    m ∈ choices ∧ s = scorer (procApply proc query) (procApply proc m) ∧
      ∀ p ∈ choices, scorer (procApply proc query) (procApply proc p) ≤ s := by
  match choices with
  | [] => simp [extractOne] at h
  | c :: cs =>
    rw [extractOne] at h
    have h' := Option.some.inj h
    obtain ⟨h1, h2, h3, h4⟩ := bestFold_spec
      (fun ch => scorer (procApply proc query) (procApply proc ch)) cs
      (c, scorer (procApply proc query) (procApply proc c)) rfl
    rw [h'] at h1 h2 h3 h4
    refine ⟨?_, h2, ?_⟩
    · rcases h1 with h | h
      · have hmc : m = c := h
        rw [hmc]
        exact List.mem_cons_self c cs
      · exact List.mem_cons_of_mem _ h
    · intro p hp
      rcases List.mem_cons.mp hp with hpc | hpt
      · rw [hpc]
        exact h3
      · exact h4 p hpt

theorem extractOne_cons_some (scorer : String → String → ℚ)
    (proc : Option (String → String)) (query : String) (c : String)
    (cs : List String) :
    ∃ m s, extractOne scorer proc query (c :: cs) = some (m, s) :=
  ⟨_, _, rfl⟩

/-- C2: the fuzzy handler pools all patterns of the green, yellow and red
tiers, normalises both clause and patterns by lower-casing and stripping
diacritics, computes the best partial-ratio score, which lies in [0, 100],
and grades it GREEN at or above the green threshold (default 90), YELLOW
at or above the yellow threshold (default 75), RED below, with evidence
naming the matched pattern and the score; an empty pool yields N/A. -/
theorem C2_fuzzy_spec (clause : String) (r : Rule) (pm : Patterns)
    (th : Thresholds) (hp : r.patterns = some pm) (ht : r.thresholds = some th) :
    (allPatterns pm = [] →
      check_fuzzy clause r = .ok ("N/A", "No patterns defined for fuzzy rule.")) ∧
    (allPatterns pm ≠ [] → ∃ mtch s, mtch ∈ allPatterns pm ∧
      s = fuzzPartialRatio (normalize_text clause) (normalize_text mtch) ∧
      (∀ p ∈ allPatterns pm,
        fuzzPartialRatio (normalize_text clause) (normalize_text p) ≤ s) ∧
      0 ≤ s ∧ s ≤ 100 ∧
      check_fuzzy clause r = .ok
        (if th.green.getD 90 ≤ s then "GREEN"
          else if th.yellow.getD 75 ≤ s then "YELLOW" else "RED",
         "Best match: '" ++ mtch ++ "' with score " ++ fmt2 s)) := by
  constructor
  · intro h0
    rw [check_fuzzy, hp]
    simp [h0]
  · intro hne
    obtain ⟨c, cs, hcc⟩ := List.exists_cons_of_ne_nil hne
    obtain ⟨mtch, s, hms⟩ : ∃ mtch s,
        extractOne fuzzPartialRatio (some normalize_text) clause
          (allPatterns pm) = some (mtch, s) := by
      rw [hcc]
      exact extractOne_cons_some _ _ _ _ _
    obtain ⟨hmem, hs, hbest⟩ := extractOne_spec _ _ _ _ _ _ hms
    refine ⟨mtch, s, hmem, ?_, ?_, ?_, ?_, ?_⟩
    · simpa [procApply] using hs
    · intro p hp'
      simpa [procApply] using hbest p hp'
    · rw [hs]
      exact fuzzPartialRatio_nonneg _ _
    · rw [hs]
      exact fuzzPartialRatio_le_100 _ _
    · rw [check_fuzzy, hp]
      have hempty : (allPatterns pm).isEmpty = false := by
        rw [hcc]
        rfl
      simp only [hempty, Bool.false_eq_true, if_false, hms, ht]

/-- Witness for C2 at a fuzzy rule whose pattern tiers are all absent,
yielding an empty pool and the N/A verdict. -/
theorem C2_witness :
    check_fuzzy "x"
        { id := "F2", name := "F", type := "fuzzy",
          patterns := some { green := none, yellow := none, red := none },
          thresholds :=
            some
              { green := none, yellow := none, amount_presence := none,
                green_max_years := none, green_min_days := none,
                green_max_percent := none } } =
      .ok ("N/A", "No patterns defined for fuzzy rule.") :=
  (C2_fuzzy_spec "x" _ { green := none, yellow := none, red := none }
      { green := none, yellow := none, amount_presence := none,
        green_max_years := none, green_min_days := none,
        green_max_percent := none } rfl rfl).1 rfl

/-- C9: for a fixed clause and fixed patterns, raising the green threshold
can only take a fuzzy verdict out of GREEN, never into it: whenever the
higher threshold already grades the clause GREEN, so does the lower one,
with identical evidence. -/
theorem C9_green_threshold_antitone (clause : String) (pm : Patterns)
    (g g' y : ℚ) (e : String) (hg : g ≤ g')
    (h : check_fuzzy clause (mkFuzzyRule pm g' y) = .ok ("GREEN", e)) :
    check_fuzzy clause (mkFuzzyRule pm g y) = .ok ("GREEN", e) := by
  rw [check_fuzzy] at h ⊢
  simp only [mkFuzzyRule] at h ⊢
  cases h0 : (allPatterns pm).isEmpty with
  | true =>
    simp only [h0, if_true] at h
    simp at h
  | false =>
    simp only [h0, Bool.false_eq_true, if_false] at h ⊢
    cases heo : extractOne fuzzPartialRatio (some normalize_text) clause
        (allPatterns pm) with
    | none =>
      rw [heo] at h
      exact absurd h (by simp)
    | some pr =>
      obtain ⟨mm, ss⟩ := pr
      simp only [heo, Option.getD_some] at h ⊢
      by_cases hgs : g' ≤ ss
      · have hgs2 : g ≤ ss := le_trans hg hgs
        simp only [if_pos hgs] at h
        simp only [if_pos hgs2]
        exact h
      · rw [if_neg hgs] at h
        by_cases hy : y ≤ ss
        · rw [if_pos hy] at h
          exact absurd h (by simp)
        · rw [if_neg hy] at h
          exact absurd h (by simp)

/-- Witness for C9: a clause scoring 100 is GREEN at green threshold 95,
and lowering the threshold to 90 keeps it GREEN with the same evidence. -/
theorem C9_witness :
    check_fuzzy "ab"
        (mkFuzzyRule { green := some ["ab"], yellow := none, red := none } 90 75) =
      .ok ("GREEN", "Best match: 'ab' with score 100.00") :=
  C9_green_threshold_antitone "ab" _ 90 95 75 _ (by norm_num) (by rfl)

/-- C10: the inverse-presence handler scores the raw clause against the
red patterns with no lower-casing and no diacritic stripping, and returns
RED exactly when the best score exceeds 90, GREEN otherwise; in
particular a red pattern occurring in the clause with different letter
case leaves the verdict GREEN. -/
theorem C10_presence_inverse_raw (clause : String) (r : Rule) (pm : Patterns)
    (reds : List String) (hp : r.patterns = some pm) (hr : pm.red = some reds)
    (hne : reds ≠ []) :
    (∃ mtch s, mtch ∈ reds ∧ s = fuzzPartialRatio clause mtch ∧
      (∀ p ∈ reds, fuzzPartialRatio clause p ≤ s) ∧
      check_presence_inverse clause r = .ok
        (if 90 < s then ("RED", "Found forbidden term: '" ++ mtch ++ "'")
          else ("GREEN", "No forbidden terms found."))) ∧
    check_presence_inverse "ab cd"
        { id := "I1", name := "Inv", type := "presence_inverse",
          patterns := some { green := none, yellow := none, red := some ["AB"] },
          thresholds := none } =
      .ok ("GREEN", "No forbidden terms found.") := by
  constructor
  · obtain ⟨c, cs, hcc⟩ := List.exists_cons_of_ne_nil hne
    obtain ⟨mtch, s, hms⟩ : ∃ mtch s,
        extractOne fuzzPartialRatio none clause reds = some (mtch, s) := by
      rw [hcc]
      exact extractOne_cons_some _ _ _ _ _
    obtain ⟨hmem, hs, hbest⟩ := extractOne_spec _ _ _ _ _ _ hms
    refine ⟨mtch, s, hmem, by simpa [procApply] using hs,
      fun p hp' => by simpa [procApply] using hbest p hp', ?_⟩
    rw [check_presence_inverse, hp]
    have hempty : reds.isEmpty = false := by
      rw [hcc]
      rfl
    simp only [hr, Option.getD_some, hempty, Bool.false_eq_true, if_false, hms]
    by_cases h90 : 90 < s
    · rw [if_pos h90, if_pos h90]
    · rw [if_neg h90, if_neg h90]
  · rfl

/-- Witness for C10 at a red pattern list containing one pattern that is
absent from the clause, so the best raw score stays at or below 90. -/
theorem C10_witness :
    check_presence_inverse "ab cd"
        { id := "I1", name := "Inv", type := "presence_inverse",
          patterns := some { green := none, yellow := none, red := some ["AB"] },
          thresholds := none } =
      .ok ("GREEN", "No forbidden terms found.") :=
  (C10_presence_inverse_raw "qq"
      { id := "I2", name := "Inv2", type := "presence_inverse",
        patterns := some { green := none, yellow := none, red := some ["zz"] },
        thresholds := none }
      { green := none, yellow := none, red := some ["zz"] } ["zz"] rfl rfl
      (by simp)).2

/-- C3: the cross-clause consistency check emits exactly one record per
document, RED exactly when at least one of the three aggregated
distinct-value sets (amounts, currencies, contract numbers collected over
all clauses) holds more than one value and GREEN otherwise; on the two
clauses asserting amounts 100.00 and 200.00 the verdict is RED with both
values named in the evidence. -/
theorem C3_cross_clause_spec :
    (∀ clauses : List String, ∃ rec : DocRecord,
      perform_final_cross_clause_check (clauses.map check_cross_clause_data) =
        [rec] ∧
      rec.rule_name = "Cross-Clause Consistency" ∧
      rec.color =
        (if 1 < (uniqueVals ((clauses.map check_cross_clause_data).flatMap
              fun cd => cd.amounts)).length ∨
            1 < (uniqueVals ((clauses.map check_cross_clause_data).flatMap
              fun cd => cd.currencies)).length ∨
            1 < (uniqueVals ((clauses.map check_cross_clause_data).flatMap
              fun cd => cd.contract_nos)).length
          then "RED" else "GREEN")) ∧
    perform_final_cross_clause_check
        (["the amount due is 100.00 in total",
          "the amount due is 200.00 in total"].map check_cross_clause_data) =
      [{ rule_name := "Cross-Clause Consistency", color := "RED",
         evidence := "Inconsistent amounts found: ['100.00', '200.00']" }] := by
  constructor
  · intro clauses
    refine ⟨_, rfl, rfl, ?_⟩
    by_cases ha : 1 < (uniqueVals ((clauses.map check_cross_clause_data).flatMap
        fun cd => cd.amounts)).length <;>
      by_cases hc : 1 < (uniqueVals ((clauses.map check_cross_clause_data).flatMap
        fun cd => cd.currencies)).length <;>
      by_cases hn : 1 < (uniqueVals ((clauses.map check_cross_clause_data).flatMap
        fun cd => cd.contract_nos)).length <;>
      simp [perform_final_cross_clause_check, ha, hc, hn]
  · decide

/-- C4 counterexample: an exception raised inside a clause handler is not
recovered: a fuzzy rule whose configuration lacks the patterns dict makes
the handler raise KeyError, which propagates and aborts the whole document
evaluation instead of degrading to an N/A record for that clause and
rule. -/
theorem C4_counterexample :
    run_evaluation (fun _ => .ok 0) "a b c d e f g h i j k l m n o p q r s t"
        [{ id := "R1", name := "FZ", type := "fuzzy", patterns := none,
           thresholds := none }] = .error "KeyError: 'patterns'" := by
  rfl

/-- C4 as amended: only the grammar-count handler recovers failures
locally, returning a clause-level N/A record whose evidence describes the
failure, for every clause and rule; exceptions of the other handlers
propagate out of the document evaluation. -/
theorem C4_amended_grammar_degrades (tool : String → Except String Nat)
    (clause : String) (r : Rule) :
    (∃ v e, check_grammar_count tool clause r = .ok (v, e)) ∧
    (∀ msg, tool clause = .error msg →
      check_grammar_count tool clause r =
        .ok ("N/A", "Grammar check failed: " ++ msg)) := by
  constructor
  · cases htool : tool clause with
    | ok n =>
      refine ⟨if n = 0 then "GREEN" else if n ≤ 5 then "YELLOW" else "RED",
        "Found " ++ toString n ++ " grammar errors.", ?_⟩
      simp [check_grammar_count, htool]
    | error e =>
      refine ⟨"N/A", "Grammar check failed: " ++ e, ?_⟩
      simp [check_grammar_count, htool]
  · intro msg hmsg
    simp [check_grammar_count, hmsg]

/-- Witness for the amended C4: an unreachable grammar tool degrades to an
N/A record with the failure message as evidence. -/
theorem C4_witness :
    check_grammar_count (fun _ => .error "offline") "x"
        { id := "G1", name := "G", type := "grammar_count", patterns := none,
          thresholds := none } =
      .ok ("N/A", "Grammar check failed: offline") :=
  (C4_amended_grammar_degrades (fun _ => .error "offline") "x"
      { id := "G1", name := "G", type := "grammar_count", patterns := none,
        thresholds := none }).2 "offline" rfl

/-- C5: when the evaluation of a clause succeeds, it yields exactly one
record per rule whose type has a registered handler, in rule order, with
the record carrying the id and name of that rule; rules without a handler
contribute no record at all. -/
theorem C5_dispatch_complete (tool : String → Except String Nat)
    (clause : String) :
    ∀ (rules : List Rule) (res : List EvalRecord),
      evaluate_clause tool clause rules = .ok res →
      res.map (fun e => e.rule_id) =
        (rules.filter fun r => r.type ∈ DISPATCH_types).map (fun r => r.id) ∧
      res.map (fun e => e.rule_name) =
        (rules.filter fun r => r.type ∈ DISPATCH_types).map (fun r => r.name)
  | [], res, h => by
    rw [evaluate_clause] at h
    have hres : res = [] := (Except.ok.inj h).symm
    subst hres
    simp
  | rule :: rest, res, h => by
    rw [evaluate_clause] at h
    by_cases hr : rule.type ∈ DISPATCH_types
    · rw [if_pos hr] at h
      cases hd : dispatch tool rule.type clause rule with
      | error e =>
        rw [hd] at h
        exact absurd h (by simp)
      | ok pr =>
        obtain ⟨color, evidence⟩ := pr
        rw [hd] at h
        cases hrec : evaluate_clause tool clause rest with
        | error e =>
          rw [hrec] at h
          exact absurd h (by simp)
        | ok tail =>
          rw [hrec] at h
          have hres : res =
              { rule_id := rule.id, rule_name := rule.name, score := color,
                details := evidence } :: tail := (Except.ok.inj h).symm
          obtain ⟨ih1, ih2⟩ := C5_dispatch_complete tool clause rest tail hrec
          subst hres
          simp [List.filter_cons, hr, ih1, ih2]
    · rw [if_neg hr] at h
      obtain ⟨ih1, ih2⟩ := C5_dispatch_complete tool clause rest res h
      simp [List.filter_cons, hr, ih1, ih2]

/-- Witness for C5: a rule list with a dispatched grammar rule and a rule
of unknown type produces exactly the one record of the dispatched rule. -/
theorem C5_witness :
    evaluate_clause (fun _ => .ok 0) "x"
        [{ id := "G1", name := "Grammar", type := "grammar_count",
           patterns := none, thresholds := none },
         { id := "U1", name := "Unknown", type := "mystery",
           patterns := none, thresholds := none }] =
      .ok [{ rule_id := "G1", rule_name := "Grammar", score := "GREEN",
             details := "Found 0 grammar errors." }] ∧
    [EvalRecord.mk "G1" "Grammar" "GREEN" "Found 0 grammar errors."].map
        (fun e => e.rule_id) =
      (([{ id := "G1", name := "Grammar", type := "grammar_count",
           patterns := none, thresholds := none },
         { id := "U1", name := "Unknown", type := "mystery",
           patterns := none, thresholds := none }] : List Rule).filter
          fun r => r.type ∈ DISPATCH_types).map (fun r => r.id) :=
  ⟨by rfl, (C5_dispatch_complete (fun _ => .ok 0) "x" _ _ (by rfl)).1⟩

/-- C6: a numeric_days rule with a configured min-days threshold grades a
clause GREEN when some extracted integer reaches the threshold; otherwise
a configured yellow pattern list is fuzzy-matched against the raw clause
and a best score above 80 gives YELLOW, anything else RED; the clause
about payment within 30 days under threshold 30 is GREEN with evidence
citing 30. -/
theorem C6_numeric_days_spec (clause : String) (r : Rule) (th : Thresholds)
    (d : ℚ) (h1 : r.type = "numeric_days") (h2 : r.thresholds = some th)
    (h3 : th.green_min_days = some d) :
    ((extractNums clause).any (fun n => d ≤ (n : ℚ)) = true →
      check_numeric clause r =
        .ok ("GREEN", "Payment period of >= " ++ pyNum d ++ " days found.")) ∧
    ((extractNums clause).any (fun n => d ≤ (n : ℚ)) = false →
      (∀ pm ys mtch s, r.patterns = some pm → pm.yellow = some ys →
        extractOne fuzzPartialRatio none clause ys = some (mtch, s) →
        ((80 < s → check_numeric clause r =
            .ok ("YELLOW", "Vague term found: '" ++ mtch ++ "'")) ∧
          (s ≤ 80 → check_numeric clause r =
            .ok ("RED", "No payment period of at least " ++ pyNum d ++
              " days found.")))) ∧
      (∀ pm, r.patterns = some pm → pm.yellow = none →
        check_numeric clause r =
          .ok ("RED", "No payment period of at least " ++ pyNum d ++
            " days found."))) ∧
    check_numeric "Payment within 30 days of invoice."
        { id := "D1", name := "Days", type := "numeric_days", patterns := none,
          thresholds :=
            some
              { green := none, yellow := none, amount_presence := none,
                green_max_years := none, green_min_days := some 30,
                green_max_percent := none } } =
      .ok ("GREEN", "Payment period of >= 30 days found.") := by
  have hdays : check_numeric clause r =
      (if (extractNums clause).isEmpty then
        numericDaysFallback clause r (some d)
      else if (extractNums clause).any (fun n => d ≤ (n : ℚ)) then
        .ok ("GREEN", "Payment period of >= " ++ pyNum d ++ " days found.")
      else numericDaysFallback clause r (some d)) := by
    rw [check_numeric]
    simp only [h1, h2, h3]
    rw [if_neg (by decide), if_neg (by decide), if_pos trivial]
  refine ⟨?_, ?_, by rfl⟩
  · intro hany
    have hnonempty : ¬((extractNums clause).isEmpty = true) := by
      cases hnn : extractNums clause with
      | nil =>
        rw [hnn] at hany
        simp at hany
      | cons a as => simp
    rw [hdays, if_neg hnonempty, if_pos hany]
  · intro hany
    have hmain : check_numeric clause r =
        numericDaysFallback clause r (some d) := by
      rw [hdays]
      by_cases hemp : (extractNums clause).isEmpty = true
      · rw [if_pos hemp]
      · rw [if_neg hemp, if_neg (by simp [hany])]
    constructor
    · intro pm ys mtch s hp hy heo
      have hfb : numericDaysFallback clause r (some d) =
          (if 80 < s then
            .ok ("YELLOW", "Vague term found: '" ++ mtch ++ "'")
          else
            .ok ("RED", "No payment period of at least " ++ pyNum d ++
              " days found.")) := by
        rw [numericDaysFallback, hp]
        simp only [hy, heo, noPeriodMsg, pyOptNum]
      constructor
      · intro h80
        rw [hmain, hfb, if_pos h80]
      · intro h80
        rw [hmain, hfb, if_neg (not_lt.mpr h80)]
    · intro pm hp hy
      have hfb : numericDaysFallback clause r (some d) =
          .ok ("RED", "No payment period of at least " ++ pyNum d ++
            " days found.") := by
        rw [numericDaysFallback, hp]
        simp only [hy, noPeriodMsg, pyOptNum]
      rw [hmain, hfb]

/-- Witness for C6 at the scenario clause and rule: the extracted number
30 reaches the threshold 30 and the verdict is GREEN. -/
theorem C6_witness :
    check_numeric "Payment within 30 days of invoice."
        { id := "D2", name := "Days2", type := "numeric_days",
          patterns := none,
          thresholds :=
            some
              { green := none, yellow := none, amount_presence := none,
                green_max_years := none, green_min_days := some 30,
                green_max_percent := none } } =
      .ok ("GREEN", "Payment period of >= 30 days found.") :=
  (C6_numeric_days_spec "Payment within 30 days of invoice." _ _ 30 rfl rfl
      rfl).1 (by decide)

/-- C7 counterexample: the clause holds no digit run immediately followed
by a percent character, yet the percentage handler returns GREEN rather
than the N/A the claim requires, because the source regex permits
whitespace between the digits and the percent sign. -/
theorem C7_counterexample :
    immediatePercentNums "retention of 5 % applies" = [] ∧
    check_numeric "retention of 5 % applies"
        { id := "P1", name := "Perc", type := "numeric_percentage",
          patterns := none,
          thresholds :=
            some
              { green := none, yellow := none, amount_presence := none,
                green_max_years := none, green_min_days := none,
                green_max_percent := some 10 } } =
      .ok ("GREEN", "Found percentage <= 10%.") := by
  exact ⟨by rfl, by rfl⟩

/-- C7 as amended: the percentage handler considers exactly the digit runs
followed by optional whitespace and a percent character; with a configured
max-percent threshold it returns N/A when there is no such number, GREEN
when some such number is at most the threshold, and RED otherwise with the
first such number in evidence. -/
theorem C7_amended_percentage_spec (clause : String) (r : Rule)
    (th : Thresholds) (m : ℚ) (h1 : r.type = "numeric_percentage")
    (h2 : r.thresholds = some th) (h3 : th.green_max_percent = some m) :
    (percNums clause = [] →
      check_numeric clause r = .ok ("N/A", "No percentage value found.")) ∧
    (percNums clause ≠ [] →
      ((percNums clause).any (fun p => (p : ℚ) ≤ m) = true →
        check_numeric clause r =
          .ok ("GREEN", "Found percentage <= " ++ pyNum m ++ "%.")) ∧
      ((percNums clause).any (fun p => (p : ℚ) ≤ m) = false →
        check_numeric clause r =
          .ok ("RED", "Found percentage > " ++ pyNum m ++ "%: " ++
            toString ((percNums clause).headD 0) ++ "%"))) := by
  have hperc : check_numeric clause r =
      (if (percNums clause).isEmpty then
        .ok ("N/A", "No percentage value found.")
      else if (percNums clause).any (fun p => (p : ℚ) ≤ m) then
        .ok ("GREEN", "Found percentage <= " ++ pyNum m ++ "%.")
      else
        .ok ("RED", "Found percentage > " ++ pyNum m ++ "%: " ++
          toString ((percNums clause).headD 0) ++ "%")) := by
    rw [check_numeric]
    simp only [h1, h2, h3]
    rw [if_neg (by decide), if_neg (by decide), if_neg (by decide),
      if_pos trivial]
  constructor
  · intro h0
    rw [hperc, if_pos (by simp [h0])]
  · intro hne
    have hnonempty : ¬((percNums clause).isEmpty = true) := by
      cases hnn : percNums clause with
      | nil => exact absurd hnn hne
      | cons a as => simp
    constructor
    · intro hany
      rw [hperc, if_neg hnonempty, if_pos hany]
    · intro hany
      rw [hperc, if_neg hnonempty, if_neg (by simp [hany])]

/-- Witness for the amended C7 at a clause with one percent number below
the threshold. -/
theorem C7_witness :
    check_numeric "cap of 7% here"
        { id := "P2", name := "Perc2", type := "numeric_percentage",
          patterns := none,
          thresholds :=
            some
              { green := none, yellow := none, amount_presence := none,
                green_max_years := none, green_min_days := none,
                green_max_percent := some 10 } } =
      .ok ("GREEN", "Found percentage <= 10%.") :=
  ((C7_amended_percentage_spec "cap of 7% here" _ _ 10 rfl rfl rfl).2
      (by decide)).1 (by decide)

/-- C8: an empty or whitespace-only document splits into no clauses as an
explicit no-op, and its evaluation yields an empty clause-level list plus
the single GREEN cross-clause record with the fixed all-consistent
evidence, for any rule set. -/
theorem C8_empty_input (text : String) (rules : List Rule)
    (tool : String → Except String Nat) (h : pyStrip text = "") :
    split_clauses text = [] ∧
    run_evaluation tool text rules =
      .ok ([],
        [{ rule_name := "Cross-Clause Consistency", color := "GREEN",
           evidence := "All values are consistent across clauses." }]) := by
  have hs : split_clauses text = [] := by
    rw [split_clauses, if_pos h]
  refine ⟨hs, ?_⟩
  rw [run_evaluation, hs]
  rfl

/-- Witness for C8 on a whitespace-only document with a nonempty rule
list. -/
theorem C8_witness :
    split_clauses "  \n\t " = [] ∧
    run_evaluation (fun _ => .ok 0) "  \n\t "
        [{ id := "F9", name := "F", type := "fuzzy", patterns := none,
           thresholds := none }] =
      .ok ([],
        [{ rule_name := "Cross-Clause Consistency", color := "GREEN",
           evidence := "All values are consistent across clauses." }]) :=
  C8_empty_input "  \n\t " _ _ (by decide)

end ClauseEngine
